import Mathlib

unseal Rat.add Rat.sub Rat.mul Rat.inv

/-!
Shallow embedding of the quantum-chess engine (czy-ustc/chess).

The definitions below translate `src/chess/constant.py`, `src/chess/piece.py`,
`src/chess/rule.py`, `src/chess/chessboard.py`, `src/chess/game.py`,
`src/chess/evaluate.py` and `src/chess/chess.py` into Lean.  Python's
in-place mutation of `Piece` objects inside the board's piece list is
rendered as functional updates (`List.set`) at the index of the mutated
piece, which reproduces the aliasing behaviour of object references:
every operation re-reads the piece at its index from the current list
before transforming it.  Python exceptions (attribute errors on a failed
`find`, subscripting `None`, out-of-range coordinates) are rendered as
`none` results.  `random.random()` and `random.shuffle` are passed in
explicitly as a rational draw and a reordering function.
Probabilities are rationals.
-/

namespace QChess

/-- Color enumeration from `constant.py`. -/
inductive Color where
  | WHITE
  | BLACK
deriving DecidableEq, Repr

/-- Piece-kind enumeration (`Name`) from `constant.py`. -/
inductive Name where
  | KING
  | QUEEN
  | ROOK
  | BISHOP
  | KNIGHT
  | PAWN
deriving DecidableEq, Repr

/-- Square state used by the move rules, from `constant.py`. -/
inductive State where
  | UNOCCUPIED
  | REACHABLE
  | UNREACHABLE
deriving DecidableEq, Repr

/-- Game outcome enumeration from `constant.py`. -/
inductive Winner where
  | DRAW
  | NULL
  | WHITE
  | BLACK
deriving DecidableEq, Repr

/-- A board square `(col, row)`. -/
abbrev Place := Int × Int

/-- One placement `(col, row, probability)` of a quantum piece. -/
abbrev Placement := Int × Int × ℚ

/-- The square of a placement (Python `p[:2]`). -/
def placeOf (p : Placement) : Place := (p.1, p.2.1)

/-- The tolerance `1e-6` used throughout `rule.py` and `piece.py`. -/
def eps : ℚ := 1 / 1000000

/-- A quantum piece (`piece.py`): a color, a kind, and a list of placements. -/
structure Piece where
  color : Color
  name : Name
  places : List Placement
deriving DecidableEq, Repr

/-- Append a placement (`Piece.add`). -/
def Piece.add (pc : Piece) (p : Placement) : Piece :=
  { pc with places := pc.places ++ [p] }

/-- Remove the first placement at a square from a placement list, returning
it and the remaining list (`Piece.remove`); `none` when absent. -/
def removeFirst : List Placement → Place → Option (Placement × List Placement)
  | [], _ => none
  | p :: rest, sqr =>
      if placeOf p = sqr then some (p, rest)
      else
        match removeFirst rest sqr with
        | none => none
        | some (v, rest') => some (v, p :: rest')

/-- Remove the first placement at a square (`Piece.remove`): returns the
removed placement and the updated piece, or `none` when nothing matches. -/
def Piece.remove (pc : Piece) (sqr : Place) : Option (Placement × Piece) :=
  match removeFirst pc.places sqr with
  | none => none
  | some (v, rest) => some (v, { pc with places := rest })

/-- Empty the placement list (`Piece.clear`): the piece is dead afterwards. -/
def Piece.clear (pc : Piece) : Piece := { pc with places := [] }

/-- Whether the piece may appear at a square (`Piece.find`). -/
def Piece.find (pc : Piece) (sqr : Place) : Bool :=
  pc.places.any (fun p => placeOf p = sqr)

/-- Probability of the piece at a square, 0 when absent (`Piece.get`). -/
def Piece.get (pc : Piece) (sqr : Place) : ℚ :=
  match pc.places.find? (fun p => placeOf p = sqr) with
  | some p => p.2.2
  | none => 0

/-- Whether the piece is superposed (`Piece.superposed`): more than one
placement, or a single placement with probability different from 1. -/
def Piece.superposed (pc : Piece) : Bool :=
  match pc.places with
  | [p] => decide (p.2.2 ≠ 1)
  | _ => true

/-- Walk of `Piece.measure`: subtract each placement's probability from the
draw; the first placement where the remainder drops below `eps` wins. -/
def measureFind (r : ℚ) : List Placement → Option Place
  | [] => none
  | p :: rest =>
      if r - p.2.2 < eps then some (placeOf p) else measureFind (r - p.2.2) rest

/-- Measurement (`Piece.measure`) with the random draw `r` and the result of
`random.shuffle` made explicit.  On success the placements collapse to the
single winning square at probability 1; when no placement wins the piece's
placement list is left as the shuffled list and no square is returned. -/
def Piece.measureWith (pc : Piece) (r : ℚ)
    (shuffle : List Placement → List Placement) : Option Place × Piece :=
  let ps := shuffle pc.places
  match measureFind r ps with
  | some sqr => (some sqr, { pc with places := [(sqr.1, sqr.2, 1)] })
  | none => (none, { pc with places := ps })

/-- Boundary test from `Rule.overstep`. -/
def overstep (sqr : Place) : Bool :=
  !(decide (1 ≤ sqr.1) && decide (sqr.1 ≤ 8) && decide (1 ≤ sqr.2) && decide (sqr.2 ≤ 8))

/-- The derived square map: a square's entry, as in `ChessBoard.place_piece`
(iterate the pieces and their placements in order, later writes win). -/
abbrev BoardData := Place → Option (Color × Name × ℚ)

/-- All writes performed by `place_piece`, in order. -/
def boardWrites (pieces : List Piece) : List (Place × (Color × Name × ℚ)) :=
  pieces.flatMap (fun pc => pc.places.map (fun p => (placeOf p, (pc.color, pc.name, p.2.2))))

/-- The derived square map of `ChessBoard.place_piece`. -/
def boardData (pieces : List Piece) : BoardData := fun sqr =>
  (boardWrites pieces).foldl (fun acc kv => if kv.1 = sqr then some kv.2 else acc) none

/-- Occupancy check shared by the sliding pieces (`MoveRule.check`). -/
def baseCheck (color : Color) (piece? : Option (Color × Name × ℚ)) : State :=
  match piece? with
  | none => .UNOCCUPIED
  | some (c, _, p) =>
      if 1 - p > eps then .UNOCCUPIED
      else if c ≠ color then .REACHABLE
      else .UNREACHABLE

/-- Pawn occupancy check (`PawnMoveRule.check`). -/
def pawnCheck (color : Color) (cur nxt : Place)
    (piece? : Option (Color × Name × ℚ)) : State :=
  if color = Color.WHITE ∧ cur.2 > nxt.2 then .UNREACHABLE
  else if color = Color.BLACK ∧ cur.2 < nxt.2 then .UNREACHABLE
  else if |cur.2 - nxt.2| = 2 ∧
      ¬((color = Color.WHITE ∧ cur.2 = 2) ∨ (color = Color.BLACK ∧ cur.2 = 7)) then
    .UNREACHABLE
  else if cur.1 = nxt.1 then
    match piece? with
    | none => .REACHABLE
    | some (_, _, p) => if 1 - p > eps then .REACHABLE else .UNREACHABLE
  else
    match piece? with
    | none => .UNREACHABLE
    | some (c, _, _) => if c = color then .UNREACHABLE else .REACHABLE

/-- Rook occupancy check (`RookMoveRule.check`): the base check plus the
castling hook that reports a friendly probability-1 king on the e-file
reachable when the rook stands on a corner of its home rank. -/
def rookCheck (color : Color) (cur nxt : Place)
    (piece? : Option (Color × Name × ℚ)) : State :=
  let st := baseCheck color piece?
  match piece? with
  | some (c, n, p) =>
      if st = .UNREACHABLE ∧ c = color ∧ n = .KING ∧ p = 1 ∧ nxt.1 = 5 ∧
          (cur.1 = 1 ∨ cur.1 = 8) ∧ cur.2 = (if color = Color.WHITE then 1 else 8) then
        .REACHABLE
      else st
  | none => st

/-- Knight occupancy check (`KnightMoveRule.check`). -/
def knightCheck (color : Color) (piece? : Option (Color × Name × ℚ)) : State :=
  match piece? with
  | some (c, _, p) => if c = color ∧ p = 1 then .UNREACHABLE else .REACHABLE
  | none => .REACHABLE

/-- Occupancy check of each piece kind, via the `settings.rules` table. -/
def checkOf : Name → Color → Place → Place → Option (Color × Name × ℚ) → State
  | .PAWN => pawnCheck
  | .ROOK => rookCheck
  | .KNIGHT => fun color _ _ pc => knightCheck color pc
  | _ => fun color _ _ pc => baseCheck color pc

/-- Movement vectors of the pawn (`PawnMoveRule.moves`). -/
def pawnMoves : List (List (Int × Int)) :=
  [[(0, 1)], [(0, 2)], [(1, 1)], [(-1, 1)],
   [(0, -1)], [(0, -2)], [(1, -1)], [(-1, -1)]]

/-- Movement vectors of the rook (`RookMoveRule.moves`). -/
def rookMoves : List (List (Int × Int)) :=
  [[(1, 0), (2, 0), (3, 0), (4, 0), (5, 0), (6, 0), (7, 0)],
   [(-1, 0), (-2, 0), (-3, 0), (-4, 0), (-5, 0), (-6, 0), (-7, 0)],
   [(0, 1), (0, 2), (0, 3), (0, 4), (0, 5), (0, 6), (0, 7)],
   [(0, -1), (0, -2), (0, -3), (0, -4), (0, -5), (0, -6), (0, -7)]]

/-- Movement vectors of the knight (`KnightMoveRule.moves`). -/
def knightMoves : List (List (Int × Int)) :=
  [[(1, 2)], [(2, 1)], [(-1, 2)], [(-2, 1)],
   [(1, -2)], [(2, -1)], [(-1, -2)], [(-2, -1)]]

/-- Movement vectors of the bishop (`BishopMoveRule.moves`). -/
def bishopMoves : List (List (Int × Int)) :=
  [[(1, 1), (2, 2), (3, 3), (4, 4), (5, 5), (6, 6), (7, 7)],
   [(-1, 1), (-2, 2), (-3, 3), (-4, 4), (-5, 5), (-6, 6), (-7, 7)],
   [(1, -1), (2, -2), (3, -3), (4, -4), (5, -5), (6, -6), (7, -7)],
   [(-1, -1), (-2, -2), (-3, -3), (-4, -4), (-5, -5), (-6, -6), (-7, -7)]]

/-- Movement vectors of the queen (`QueenMoveRule.moves`). -/
def queenMoves : List (List (Int × Int)) := rookMoves ++ bishopMoves

/-- Movement vectors of the king (`KingMoveRule.moves`). -/
def kingMoves : List (List (Int × Int)) :=
  [[(1, 1)], [(1, 0)], [(1, -1)], [(0, 1)],
   [(0, -1)], [(-1, 1)], [(-1, 0)], [(-1, -1)]]

/-- Movement vectors of each piece kind. -/
def movesOf : Name → List (List (Int × Int))
  | .KING => kingMoves
  | .QUEEN => queenMoves
  | .ROOK => rookMoves
  | .BISHOP => bishopMoves
  | .KNIGHT => knightMoves
  | .PAWN => pawnMoves

/-- Inner loop of `MoveRule.next` on one ray: stop at the boundary, yield and
continue past `UNOCCUPIED` squares, yield and stop at a `REACHABLE` square,
stop silently at an `UNREACHABLE` one. -/
def rayWalk (check : Color → Place → Place → Option (Color × Name × ℚ) → State)
    (color : Color) (sel : Place) (data : BoardData) : List (Int × Int) → List Place
  | [] => []
  | step :: rest =>
      let nxt : Place := (sel.1 + step.1, sel.2 + step.2)
      if overstep nxt then []
      else
        match check color sel nxt (data nxt) with
        | .UNOCCUPIED => nxt :: rayWalk check color sel data rest
        | .REACHABLE => [nxt]
        | .UNREACHABLE => []

/-- Destination generator `MoveRule.next`, dispatched on the piece kind. -/
def ruleNext (name : Name) (color : Color) (sel : Place) (data : BoardData) :
    List Place :=
  (movesOf name).flatMap (rayWalk (checkOf name) color sel data)

/-- An action: a tuple of source squares and a tuple of target squares. -/
abbrev Action := List Place × List Place

/-- The chessboard (`chessboard.py`): the piece list, the side to move and
the last move record.  The square map is derived (`boardData`). -/
structure ChessBoard where
  pieces : List Piece
  color : Color
  record : String
deriving DecidableEq, Repr

/-- Coordinate validation of `ChessBoard.transform_place` (out-of-range
coordinates raise, rendered as `false`). -/
def inBounds (sqr : Place) : Bool :=
  decide (1 ≤ sqr.1) && decide (sqr.1 ≤ 8) && decide (1 ≤ sqr.2) && decide (sqr.2 ≤ 8)

/-- Lookup of `ChessBoard.get_piece`: the first piece holding a placement at
every given square.  An out-of-range key raises in Python; here it yields
`none` (observed identically by `move_piece`, which then fails). -/
def getPiece (keys : List Place) (pieces : List Piece) : Option Piece :=
  if keys.all inBounds then pieces.find? (fun pc => keys.all (fun k => pc.find k))
  else none

/-- Lookup of `Rule.find`: the first piece with a placement at the square,
together with its index in the piece list (the index stands for the object
identity that Python mutates in place). -/
def findPieceIdx (sqr : Place) : List Piece → Option (Nat × Piece)
  | [] => none
  | pc :: rest =>
      if pc.find sqr then some (0, pc)
      else (findPieceIdx sqr rest).map (fun ip => (ip.1 + 1, ip.2))

/-- Sources yielded by `ChessBoard.select_piece`: one singleton tuple per
placement of each piece of the given color, in piece-list order. -/
def selectPiece (pieces : List Piece) (color : Color) : List (List Place) :=
  pieces.flatMap (fun pc =>
    if pc.color = color then pc.places.map (fun p => [placeOf p]) else [])

/-- The basic single-source single-target action set of `ChessBoard.actions`
step 1. -/
def basicActions (pieces : List Piece) (color : Color) : List Action :=
  let data := boardData pieces
  (selectPiece pieces color).flatMap (fun source =>
    match getPiece source pieces with
    | some pc =>
        match source with
        | [s] => (ruleNext pc.name pc.color s data).map (fun d => (source, [d]))
        | _ => []
    | none => [])

/-- Ordered pairs produced by `itertools.combinations(l, 2)`. -/
def pairs : List α → List (α × α)
  | [] => []
  | x :: rest => rest.map (fun y => (x, y)) ++ pairs rest

/-- Insert a key with an empty value list when absent, keeping insertion
order (Python `if k not in d: d[k] = []`). -/
def alistInsertKey (d : List (Place × List Place)) (k : Place) :
    List (Place × List Place) :=
  if d.any (fun kv => kv.1 = k) then d else d ++ [(k, [])]

/-- Append a value to the list stored under a key (Python `d[k].append(v)`). -/
def alistAppend (d : List (Place × List Place)) (k : Place) (v : Place) :
    List (Place × List Place) :=
  d.map (fun kv => if kv.1 = k then (kv.1, kv.2 ++ [v]) else kv)

/-- One step of the `src_dict` construction in `SplitMove.transform`. -/
def splitDictStep (pieces : List Piece) (d : List (Place × List Place))
    (a : Action) : List (Place × List Place) :=
  match a with
  | (source, target) =>
      if source.length > 1 ∨ target.length > 1 then d
      else
        match source, target with
        | [s], [t] =>
            match findPieceIdx s pieces with
            | none => d
            | some (_, spc) =>
                if spc.name = Name.PAWN then d
                else
                  let d := alistInsertKey d s
                  match findPieceIdx t pieces with
                  | none => alistAppend d s t
                  | some (_, dpc) =>
                      if dpc.color = spc.color ∧ dpc.name = spc.name then
                        alistAppend d s t
                      else d
        | _, _ => d

/-- The split-move combiner `SplitMove.transform`: for every non-pawn source,
every ordered pair of distinct eligible targets (empty squares or squares
held by a same-color same-kind piece) becomes a one-source two-target
action appended to the list. -/
def splitTransform (actions : List Action) (pieces : List Piece) : List Action :=
  let d := actions.foldl (splitDictStep pieces) []
  actions ++ d.flatMap (fun kv =>
    (pairs kv.2).filterMap (fun p =>
      if p.1 ≠ p.2 then some ([kv.1], [p.1, p.2]) else none))

/-- One step of the `dst_dict` construction in `MergeMove.transform`. -/
def mergeDictStep (d : List (Place × List Place)) (a : Action) :
    List (Place × List Place) :=
  match a with
  | (source, target) =>
      if source.length > 1 ∨ target.length > 1 then d
      else
        match source, target with
        | [s], [t] => alistAppend (alistInsertKey d t) t s
        | _, _ => d

/-- The merge-move combiner `MergeMove.transform`: for every target shared by
two sources that belong to one piece identity and is itself empty, a
two-source one-target action is appended. -/
def mergeTransform (actions : List Action) (pieces : List Piece) : List Action :=
  let d := actions.foldl mergeDictStep []
  actions ++ d.flatMap (fun kv =>
    (pairs kv.2).filterMap (fun p =>
      match findPieceIdx p.1 pieces with
      | none => none
      | some (_, spc) =>
          if spc.find p.2 ∧ (findPieceIdx kv.1 pieces) = none ∧ p.1 ≠ p.2 then
            some ([p.1, p.2], [kv.1])
          else none))

/-- Full action enumeration `ChessBoard.actions`: the basic set, extended by
the split combiner and then the merge combiner. -/
def chessActions (pieces : List Piece) (color : Color) : List Action :=
  mergeTransform (splitTransform (basicActions pieces color) pieces) pieces

/-- The standard starting piece list from `game.py` (probability 1 on every
home square, as filled in by `Game.__init__`). -/
def standardPieces : List Piece :=
  [⟨.WHITE, .ROOK, [(1, 1, 1)]⟩, ⟨.WHITE, .KNIGHT, [(2, 1, 1)]⟩,
   ⟨.WHITE, .BISHOP, [(3, 1, 1)]⟩, ⟨.WHITE, .QUEEN, [(4, 1, 1)]⟩,
   ⟨.WHITE, .KING, [(5, 1, 1)]⟩, ⟨.WHITE, .BISHOP, [(6, 1, 1)]⟩,
   ⟨.WHITE, .KNIGHT, [(7, 1, 1)]⟩, ⟨.WHITE, .ROOK, [(8, 1, 1)]⟩,
   ⟨.WHITE, .PAWN, [(1, 2, 1)]⟩, ⟨.WHITE, .PAWN, [(2, 2, 1)]⟩,
   ⟨.WHITE, .PAWN, [(3, 2, 1)]⟩, ⟨.WHITE, .PAWN, [(4, 2, 1)]⟩,
   ⟨.WHITE, .PAWN, [(5, 2, 1)]⟩, ⟨.WHITE, .PAWN, [(6, 2, 1)]⟩,
   ⟨.WHITE, .PAWN, [(7, 2, 1)]⟩, ⟨.WHITE, .PAWN, [(8, 2, 1)]⟩,
   ⟨.BLACK, .ROOK, [(1, 8, 1)]⟩, ⟨.BLACK, .KNIGHT, [(2, 8, 1)]⟩,
   ⟨.BLACK, .BISHOP, [(3, 8, 1)]⟩, ⟨.BLACK, .QUEEN, [(4, 8, 1)]⟩,
   ⟨.BLACK, .KING, [(5, 8, 1)]⟩, ⟨.BLACK, .BISHOP, [(6, 8, 1)]⟩,
   ⟨.BLACK, .KNIGHT, [(7, 8, 1)]⟩, ⟨.BLACK, .ROOK, [(8, 8, 1)]⟩,
   ⟨.BLACK, .PAWN, [(1, 7, 1)]⟩, ⟨.BLACK, .PAWN, [(2, 7, 1)]⟩,
   ⟨.BLACK, .PAWN, [(3, 7, 1)]⟩, ⟨.BLACK, .PAWN, [(4, 7, 1)]⟩,
   ⟨.BLACK, .PAWN, [(5, 7, 1)]⟩, ⟨.BLACK, .PAWN, [(6, 7, 1)]⟩,
   ⟨.BLACK, .PAWN, [(7, 7, 1)]⟩, ⟨.BLACK, .PAWN, [(8, 7, 1)]⟩]

/-- The freshly constructed standard board: White to move, empty record. -/
def standardBoard : ChessBoard := ⟨standardPieces, .WHITE, ""⟩

/-- Square rendering of `ActionRule.place2str` (file letter then rank digit). -/
def place2str (sqr : Place) : String :=
  String.mk [Char.ofNat (96 + sqr.1.toNat), Char.ofNat (48 + sqr.2.toNat)]

/-- Piece letter of `ActionRule.piece2str`. -/
def piece2str (pc : Piece) : String :=
  match pc.name with
  | .KING => "K"
  | .QUEEN => "Q"
  | .ROOK => "R"
  | .BISHOP => "B"
  | .KNIGHT => "N"
  | .PAWN => ""

/-- First nonzero probability found at a square while scanning the piece
list, as in the inner loop of `ActionRule.obstacle`. -/
def probAt (pieces : List Piece) (sqr : Place) : Option ℚ :=
  pieces.findSome? (fun pc => let p := pc.get sqr; if p > 0 then some p else none)

/-- The walk of `ActionRule.obstacle` from the first intermediate square to
the target.  The fuel argument bounds the number of steps; it is chosen so
the target is always reached first on the straight or diagonal paths the
caller supplies. -/
def obstacleGo (pieces : List Piece) (tgt : Place) (stepX stepY : Int) :
    Nat → Int → Int → ℚ
  | 0, _, _ => 0
  | fuel + 1, x, y =>
      if x = tgt.1 ∧ y = tgt.2 then 0
      else
        match probAt pieces (x, y) with
        | some p => p
        | none => obstacleGo pieces tgt stepX stepY fuel (x + stepX) (y + stepY)

/-- Probability of the first superposed obstacle strictly between source and
target (`ActionRule.obstacle`); 0 on knight-like displacements. -/
def obstacle (source target : Place) (pieces : List Piece) : ℚ :=
  let vec : Place := (target.1 - source.1, target.2 - source.2)
  if vec.1 ≠ 0 ∧ vec.2 ≠ 0 ∧ |vec.1| ≠ |vec.2| then 0
  else
    let stepX := vec.1.sign
    let stepY := vec.2.sign
    obstacleGo pieces target stepX stepY (max vec.1.natAbs vec.2.natAbs)
      (source.1 + stepX) (source.2 + stepY)

/-- Condition of `MoveActionRule`: one source, one target, the target square
empty in the derived map. -/
def moveCond (_color : Color) (_name : Name) (source target : List Place)
    (data : BoardData) : Bool :=
  match source, target with
  | [_], [t] => (data t).isNone
  | _, _ => false

/-- Condition of `AttackActionRule`: one source, one target, an opposing
piece recorded at the target. -/
def attackCond (color : Color) (_name : Name) (source target : List Place)
    (data : BoardData) : Bool :=
  match source, target with
  | [_], [t] =>
      match data t with
      | some (c, _, _) => decide (c ≠ color)
      | none => false
  | _, _ => false

/-- Condition of `CastlingActionRule`: one source, one target, the moving
piece a rook, and a friendly king recorded at the target with probability
exactly 1.  No corner or home-rank requirement appears here. -/
def castlingCond (color : Color) (name : Name) (source target : List Place)
    (data : BoardData) : Bool :=
  match source, target with
  | [_], [t] =>
      match data t with
      | some (c, n, p) =>
          decide (name = Name.ROOK) && decide (c = color) &&
            decide (n = Name.KING) && decide (p = 1)
      | none => false
  | _, _ => false

/-- Condition of `MeetActionRule`: one source, one target, a friendly piece
at the target that is not a probability-1 king. -/
def meetCond (color : Color) (_name : Name) (source target : List Place)
    (data : BoardData) : Bool :=
  match source, target with
  | [_], [t] =>
      match data t with
      | some (c, n, p) => decide (c = color) && (decide (p < 1) || decide (n ≠ Name.KING))
      | none => false
  | _, _ => false

/-- Condition of `SplitMoveActionRule`: exactly two targets. -/
def splitCond (_color : Color) (_name : Name) (_source target : List Place)
    (_data : BoardData) : Bool :=
  target.length = 2

/-- Condition of `MergeMoveActionRule`: exactly two sources. -/
def mergeCond (_color : Color) (_name : Name) (source _target : List Place)
    (_data : BoardData) : Bool :=
  source.length = 2

/-- Tags for the six action rules, in the order Python's
`ActionRule.__subclasses__()` lists them (definition order in `rule.py`). -/
inductive RuleTag where
  | move
  | attack
  | castling
  | meet
  | split
  | merge
deriving DecidableEq, Repr

/-- First action rule whose condition matches, in subclass order. -/
def selectRule (color : Color) (name : Name) (source target : List Place)
    (data : BoardData) : Option RuleTag :=
  if moveCond color name source target data then some .move
  else if attackCond color name source target data then some .attack
  else if castlingCond color name source target data then some .castling
  else if meetCond color name source target data then some .meet
  else if splitCond color name source target data then some .split
  else if mergeCond color name source target data then some .merge
  else none

/-- Explicit replacements for Python's process-wide PRNG: the uniform draws
and shuffle results consumed by up to two `measure` calls in one action. -/
structure Rand where
  r1 : ℚ
  s1 : List Placement → List Placement
  r2 : ℚ
  s2 : List Placement → List Placement

/-- A fixed randomness source for concrete evaluations: draw 0, no shuffle. -/
def rnd0 : Rand := ⟨0, id, 0, id⟩

/-- Re-read the piece at an index and transform it in place.  This renders a
Python method call on a piece object that is an element of the live list. -/
def updAt (pieces : List Piece) (i : Nat) (f : Piece → Piece) : List Piece :=
  match pieces[i]? with
  | some q => pieces.set i (f q)
  | none => pieces

/-- Action of `MoveActionRule`: promotion-by-measurement for a pawn reaching
its last rank, otherwise the move with possible superposition entry when a
probability-1 piece crosses a superposed obstacle. -/
def moveAction (color : Color) (name : Name) (source target : List Place)
    (pieces : List Piece) (rnd : Rand) : Option (List Piece × String) :=
  match source, target with
  | s :: _, t :: _ =>
      let promotion := name = Name.PAWN ∧ t.2 = (if color = Color.WHITE then 8 else 1)
      match findPieceIdx s pieces with
      | none => none
      | some (i, pc) =>
          if promotion then
            let (res, pc') := pc.measureWith rnd.r1 rnd.s1
            let pc'' :=
              if res = some s then
                { pc'.clear.add (t.1, t.2, 1) with name := Name.QUEEN }
              else pc'
            some (pieces.set i pc'', place2str t ++ "-Q")
          else
            let record := piece2str pc ++ place2str s ++ "-" ++ place2str t
            match pc.remove s with
            | none => none
            | some (v, pc1) =>
                let p := v.2.2
                if p < 1 then
                  some (pieces.set i (pc1.add (t.1, t.2, p)), record)
                else
                  let pieces1 := pieces.set i pc1
                  let value := obstacle s t pieces1
                  if value > 0 then
                    some (pieces1.set i ((pc1.add (t.1, t.2, value)).add (s.1, s.2, 1 - value)),
                      record)
                  else
                    some (pieces1.set i (pc1.add (t.1, t.2, p)), record)
  | _, _ => none

/-- Action of `AttackActionRule`: measure the attacker; on collapse away from
the source nothing else happens, otherwise one placement of the defender at
the target is stripped and the attacker collapses to the target. -/
def attackAction (_color : Color) (_name : Name) (source target : List Place)
    (pieces : List Piece) (rnd : Rand) : Option (List Piece × String) :=
  match source, target with
  | s :: _, t :: _ =>
      match findPieceIdx s pieces with
      | none => none
      | some (i, pc) =>
          let (place?, pc') := pc.measureWith rnd.r1 rnd.s1
          let record := piece2str pc ++ place2str s ++ "x" ++ place2str t
          let pieces1 := pieces.set i pc'
          if place? ≠ some s then some (pieces1, record)
          else
            match findPieceIdx t pieces1 with
            | none => none
            | some (j, dpc) =>
                let dpc' := match dpc.remove t with
                  | some (_, d) => d
                  | none => dpc
                let pieces2 := pieces1.set j dpc'
                some (updAt pieces2 i (fun q => q.clear.add (t.1, t.2, 1)), record)
  | _, _ => none

/-- Action of `CastlingActionRule`: queen-side when the rook's source column
is 1 (rook to column 4, king to column 3), king-side otherwise (rook to
column 6, king to column 7); each placement keeps its probability. -/
def castlingAction (_color : Color) (_name : Name) (source target : List Place)
    (pieces : List Piece) : Option (List Piece × String) :=
  match source, target with
  | s :: _, t :: _ =>
      let rookCol : Int := if s.1 = 1 then 4 else 6
      let kingCol : Int := if s.1 = 1 then 3 else 7
      let record := if s.1 = 1 then "0-0-0" else "0-0"
      match findPieceIdx s pieces with
      | none => none
      | some (i, pc) =>
          match pc.remove s with
          | none => none
          | some (v, pc') =>
              let pieces1 := pieces.set i (pc'.add (rookCol, s.2, v.2.2))
              match findPieceIdx t pieces1 with
              | none => none
              | some (j, qc) =>
                  match qc.remove t with
                  | none => none
                  | some (w, qc') =>
                      some (pieces1.set j (qc'.add (kingCol, t.2, w.2.2)), record)
  | _, _ => none

/-- Action of `MeetActionRule`: same-kind friendly pieces exchange the two
placements' probabilities; different kinds measure the defender (and a
superposed attacker) and collapse the attacker onto the target when the
defender was not really there but the attacker was. -/
def meetAction (_color : Color) (_name : Name) (source target : List Place)
    (pieces : List Piece) (rnd : Rand) : Option (List Piece × String) :=
  match source, target with
  | s :: _, t :: _ =>
      match findPieceIdx s pieces with
      | none => none
      | some (i, spc) =>
          match findPieceIdx t pieces with
          | none => none
          | some (j, dpc) =>
              let record := piece2str spc ++ place2str s ++ "-" ++ place2str t
              if spc.name = dpc.name then
                match spc.remove s with
                | none => none
                | some (v1, spc1) =>
                    let pieces1 := pieces.set i spc1
                    match pieces1[j]? with
                    | none => none
                    | some q2 =>
                        match q2.remove t with
                        | none => none
                        | some (v2, q2') =>
                            let pieces2 := pieces1.set j q2'
                            let pieces3 := updAt pieces2 i (fun q => q.add (t.1, t.2, v1.2.2))
                            let pieces4 := updAt pieces3 j (fun q => q.add (s.1, s.2, v2.2.2))
                            some (pieces4, record)
              else
                let (dstPlace, dpc') := dpc.measureWith rnd.r1 rnd.s1
                let pieces1 := pieces.set j dpc'
                if ¬spc.superposed then
                  if dstPlace ≠ some t then
                    some (updAt pieces1 i (fun q => q.clear.add (t.1, t.2, 1)), record)
                  else some (pieces1, record)
                else
                  let (srcPlace, spc') := spc.measureWith rnd.r2 rnd.s2
                  let pieces2 := pieces1.set i spc'
                  if dstPlace ≠ some t ∧ srcPlace = some s then
                    some (updAt pieces2 i (fun q => q.clear.add (t.1, t.2, 1)), record)
                  else some (pieces2, record)
  | _, _ => none

/-- Action of `SplitMoveActionRule`.  When both targets are occupied the
three probabilities rotate (mover's full probability to the first target,
the first target's piece to the second target, the second target's piece to
the source).  Otherwise any occupied target's piece is re-added at the
source with its probability and the mover is split as two placements of
half its source probability. -/
def splitMoveAction (_color : Color) (_name : Name) (source target : List Place)
    (pieces : List Piece) : Option (List Piece × String) :=
  match source, target with
  | s :: _, t0 :: t1 :: _ =>
      let i0? := findPieceIdx t0 pieces
      let i1? := findPieceIdx t1 pieces
      match findPieceIdx s pieces with
      | none => none
      | some (is, spc) =>
          let record := piece2str spc ++ place2str s ++ "-" ++ place2str t0 ++ "^" ++
            place2str t1
          match i0?, i1? with
          | some (i0, _), some (i1, _) =>
              match spc.remove s with
              | none => none
              | some (v1, spc1) =>
                  let pieces1 := pieces.set is spc1
                  match pieces1[i0]? with
                  | none => none
                  | some q0 =>
                      match q0.remove t0 with
                      | none => none
                      | some (v2, q0') =>
                          let pieces2 := pieces1.set i0 q0'
                          match pieces2[i1]? with
                          | none => none
                          | some q1 =>
                              match q1.remove t1 with
                              | none => none
                              | some (v3, q1') =>
                                  let pieces3 := pieces2.set i1 q1'
                                  let pieces4 := updAt pieces3 is
                                    (fun q => q.add (t0.1, t0.2, v1.2.2))
                                  let pieces5 := updAt pieces4 i0
                                    (fun q => q.add (t1.1, t1.2, v2.2.2))
                                  let pieces6 := updAt pieces5 i1
                                    (fun q => q.add (s.1, s.2, v3.2.2))
                                  some (pieces6, record)
          | _, _ =>
              let step0 : Option (List Piece) :=
                match i0? with
                | none => some pieces
                | some (i0, _) =>
                    match pieces[i0]? with
                    | none => none
                    | some d0 =>
                        match d0.remove t0 with
                        | none => none
                        | some (w, d0') => some (pieces.set i0 (d0'.add (s.1, s.2, w.2.2)))
              match step0 with
              | none => none
              | some pieces1 =>
                  let step1 : Option (List Piece) :=
                    match i1? with
                    | none => some pieces1
                    | some (i1, _) =>
                        match pieces1[i1]? with
                        | none => none
                        | some d1 =>
                            match d1.remove t1 with
                            | none => none
                            | some (w, d1') =>
                                some (pieces1.set i1 (d1'.add (s.1, s.2, w.2.2)))
                  match step1 with
                  | none => none
                  | some pieces2 =>
                      match pieces2[is]? with
                      | none => none
                      | some q =>
                          match q.remove s with
                          | none => none
                          | some (v, q') =>
                              some (pieces2.set is
                                ((q'.add (t0.1, t0.2, v.2.2 / 2)).add (t1.1, t1.2, v.2.2 / 2)),
                                record)
  | _, _ => none

/-- Action of `MergeMoveActionRule`: the first piece found at the first
source loses its placements at both sources and gains their summed
probability at the target. -/
def mergeAction (_color : Color) (_name : Name) (source target : List Place)
    (pieces : List Piece) : Option (List Piece × String) :=
  match source, target with
  | s0 :: s1 :: _, t :: _ =>
      match findPieceIdx s0 pieces with
      | none => none
      | some (i, spc) =>
          let record := piece2str spc ++ place2str s0 ++ "^" ++ place2str s1 ++ "-" ++
            place2str t
          match spc.remove s0 with
          | none => none
          | some (v1, spc1) =>
              match spc1.remove s1 with
              | none => none
              | some (v2, spc2) =>
                  some (pieces.set i (spc2.add (t.1, t.2, v1.2.2 + v2.2.2)), record)
  | _, _ => none

/-- Dispatch of `ChessBoard.move_piece`'s rule loop: run the first matching
rule's action; when no rule matches, the pieces and record are unchanged. -/
def applyRule (color : Color) (name : Name) (source target : List Place)
    (pieces : List Piece) (record : String) (rnd : Rand) :
    Option (List Piece × String) :=
  match selectRule color name source target (boardData pieces) with
  | some .move => moveAction color name source target pieces rnd
  | some .attack => attackAction color name source target pieces rnd
  | some .castling => castlingAction color name source target pieces
  | some .meet => meetAction color name source target pieces rnd
  | some .split => splitMoveAction color name source target pieces
  | some .merge => mergeAction color name source target pieces
  | none => some (pieces, record)

/-- Side-to-move alternation at the end of `ChessBoard.move_piece`. -/
def flipColor : Color → Color
  | .WHITE => .BLACK
  | .BLACK => .WHITE

/-- The full `ChessBoard.move_piece`: find the moving piece (a missing piece
or an invalid coordinate raises, rendered as `none`), run the first
matching action rule, then hand the turn to the other side. -/
def ChessBoard.movePiece (b : ChessBoard) (source target : List Place)
    (rnd : Rand) : Option ChessBoard :=
  match getPiece source b.pieces with
  | none => none
  | some pc =>
      match applyRule pc.color pc.name source target b.pieces b.record rnd with
      | none => none
      | some (pieces', record') => some ⟨pieces', flipColor b.color, record'⟩

/-- Update an insertion-ordered dictionary: overwrite in place when the key
exists, append otherwise (Python `dict` assignment). -/
def upsert (d : List (Place × (Color × Name × ℚ))) (k : Place)
    (v : Color × Name × ℚ) : List (Place × (Color × Name × ℚ)) :=
  if d.any (fun kv => kv.1 = k) then
    d.map (fun kv => if kv.1 = k then (k, v) else kv)
  else d ++ [(k, v)]

/-- The items of the derived square dictionary built by
`ChessBoard.place_piece`, in Python dict insertion order. -/
def dataItems (pieces : List Piece) : List (Place × (Color × Name × ℚ)) :=
  (boardWrites pieces).foldl (fun d kv => upsert d kv.1 kv.2) []

/-- Signed base value of a piece kind (`RelativeStrength` class attributes):
positive for White, negative for Black. -/
def pieceValue (c : Color) (n : Name) : ℚ :=
  let base : ℚ :=
    match n with
    | .KING => 900
    | .QUEEN => 90
    | .ROOK => 50
    | .BISHOP => 30
    | .KNIGHT => 30
    | .PAWN => 10
  match c with
  | .WHITE => base
  | .BLACK => -base

/-- Evaluation of `RelativeStrength.evaluate`: the sum of signed base value
times probability over the entries of the derived square dictionary. -/
def relativeStrength (items : List (Place × (Color × Name × ℚ))) : ℚ :=
  items.foldl (fun acc kv => acc + pieceValue kv.2.1 kv.2.2.1 * kv.2.2.2) 0

/-- The game controller state (`chess.py`): the live board, the record log
and the undo stack of pre-move board snapshots. -/
structure Chess where
  chessboard : ChessBoard
  records : List String
  stack : List ChessBoard

/-- One step of `Chess.run`: push a deep copy of the live board onto the
undo stack, select the agent for the side to move, let it mutate the live
board and return the move record, and log the record. -/
def Chess.run (c : Chess) (agent1 agent2 : ChessBoard → ChessBoard × String) :
    Chess :=
  let stack' := c.stack ++ [c.chessboard]
  let agent := if c.chessboard.color = Color.WHITE then agent1 else agent2
  let step := agent c.chessboard
  ⟨step.1, c.records ++ [step.2], stack'⟩

/-- The `Chess.undo` operation: pop the last snapshot back into the live
board (popping an empty stack raises, rendered as `none`). -/
def Chess.undo (c : Chess) : Option Chess :=
  match c.stack.getLast? with
  | none => none
  | some b => some ⟨b, c.records, c.stack.dropLast⟩

/-- Winner determination `ChessBoard.game_over`: whether each side still has
a king piece with a non-empty placement list decides between an ongoing
game, a White or Black win, and a draw. -/
def gameOver (pieces : List Piece) : Winner :=
  let whiteKing := pieces.any (fun pc =>
    decide (pc.color = Color.WHITE) && decide (pc.name = Name.KING) &&
      decide (pc.places.length > 0))
  let blackKing := pieces.any (fun pc =>
    decide (pc.color = Color.BLACK) && decide (pc.name = Name.KING) &&
      decide (pc.places.length > 0))
  if whiteKing && blackKing then .NULL
  else if whiteKing && !blackKing then .WHITE
  else if blackKing && !whiteKing then .BLACK
  else .DRAW

/-! ### Theorems -/

/-- Claim C1, counterexample: on the standard starting position with White
to move, `actions()` does not return 20 actions — it returns 22, and the
list contains a split action (the b1 knight splitting to c3 and a3), so the
"no split actions" part fails as well. -/
theorem standard_actions_counterexample :
    (chessActions standardPieces Color.WHITE).length = 22 ∧
      ([(2, 1)], [(3, 3), (1, 3)]) ∈ chessActions standardPieces Color.WHITE := by
  constructor
  · rfl
  · decide

/-- Claim C1, amended: on the standard starting position with White to move,
`actions()` returns exactly 22 actions — the 16 single-source single-target
pawn moves, the 4 knight moves, and 2 knight split actions (each knight may
split to its two empty reachable squares); no merge actions appear. -/
theorem standard_actions_eq :
    chessActions standardPieces Color.WHITE =
      ([([(2, 1)], [(3, 3)]), ([(2, 1)], [(1, 3)]),
        ([(7, 1)], [(8, 3)]), ([(7, 1)], [(6, 3)]),
        ([(1, 2)], [(1, 3)]), ([(1, 2)], [(1, 4)]),
        ([(2, 2)], [(2, 3)]), ([(2, 2)], [(2, 4)]),
        ([(3, 2)], [(3, 3)]), ([(3, 2)], [(3, 4)]),
        ([(4, 2)], [(4, 3)]), ([(4, 2)], [(4, 4)]),
        ([(5, 2)], [(5, 3)]), ([(5, 2)], [(5, 4)]),
        ([(6, 2)], [(6, 3)]), ([(6, 2)], [(6, 4)]),
        ([(7, 2)], [(7, 3)]), ([(7, 2)], [(7, 4)]),
        ([(8, 2)], [(8, 3)]), ([(8, 2)], [(8, 4)]),
        ([(2, 1)], [(3, 3), (1, 3)]), ([(7, 1)], [(8, 3), (6, 3)])] : List Action) := by
  rfl

/-- Claim C2: when the random draw exceeds the remaining total probability,
`measure` does report the no-square outcome, but the piece does *not*
become dead — its placement list is left exactly as it was (here a black
pawn with a single placement of probability 1/2 and draw 9/10). -/
theorem measure_failed_keeps_places :
    Piece.measureWith ⟨Color.BLACK, Name.PAWN, [(1, 1, 1/2)]⟩ (9/10) id =
      (none, ⟨Color.BLACK, Name.PAWN, [(1, 1, 1/2)]⟩) := by
  rfl

/-- Claim C5: whenever `ChessBoard.move_piece` completes, the side to move
of the resulting board is the opposite of the side to move before the call,
whichever action rule fired (also when none did). -/
theorem movePiece_flips_color (b : ChessBoard) (source target : List Place)
    (rnd : Rand) (b' : ChessBoard) (h : b.movePiece source target rnd = some b') :
    b'.color = flipColor b.color := by
  unfold ChessBoard.movePiece at h
  split at h
  · exact absurd h (by simp)
  · split at h
    · exact absurd h (by simp)
    · cases h
      rfl

/-- The board reached from the standard position by the pawn move a2-a3. -/
def boardAfterA2A3 : ChessBoard :=
  (standardBoard.movePiece [(1, 2)] [(1, 3)] rnd0).getD ⟨[], Color.WHITE, ""⟩

/-- Witness for claim C5: the pawn move a2-a3 on the standard board flips
the side to move to Black. -/
theorem movePiece_flips_color_witness :
    boardAfterA2A3.color = flipColor standardBoard.color :=
  movePiece_flips_color standardBoard [(1, 2)] [(1, 3)] rnd0 boardAfterA2A3 rfl

/-- Whether a color still owns a king piece with at least one placement. -/
def hasLiveKing (pieces : List Piece) (c : Color) : Prop :=
  ∃ pc ∈ pieces, pc.color = c ∧ pc.name = Name.KING ∧ pc.places ≠ []

instance (pieces : List Piece) (c : Color) : Decidable (hasLiveKing pieces c) := by
  unfold hasLiveKing
  infer_instance

/-- Claim C6: `game_over` returns NULL exactly when both colors have a king
piece with at least one placement, WHITE exactly when the black king has no
placements while the white king has some, BLACK in the symmetric case, and
DRAW exactly when both kings have no placements. -/
theorem gameOver_characterization (pieces : List Piece) :
    (gameOver pieces = Winner.NULL ↔
        hasLiveKing pieces Color.WHITE ∧ hasLiveKing pieces Color.BLACK) ∧
      (gameOver pieces = Winner.WHITE ↔
        hasLiveKing pieces Color.WHITE ∧ ¬hasLiveKing pieces Color.BLACK) ∧
      (gameOver pieces = Winner.BLACK ↔
        hasLiveKing pieces Color.BLACK ∧ ¬hasLiveKing pieces Color.WHITE) ∧
      (gameOver pieces = Winner.DRAW ↔
        ¬hasLiveKing pieces Color.WHITE ∧ ¬hasLiveKing pieces Color.BLACK) := by
  have hany : ∀ c : Color,
      (pieces.any (fun pc =>
        decide (pc.color = c) && decide (pc.name = Name.KING) &&
          decide (pc.places.length > 0)) = true) ↔ hasLiveKing pieces c := by
    intro c
    simp only [List.any_eq_true, Bool.and_eq_true, decide_eq_true_eq, hasLiveKing]
    constructor
    · rintro ⟨pc, hpc, ⟨⟨hc, hn⟩, hl⟩⟩
      exact ⟨pc, hpc, hc, hn, by simpa using List.length_pos.mp hl⟩
    · rintro ⟨pc, hpc, hc, hn, hl⟩
      exact ⟨pc, hpc, ⟨⟨hc, hn⟩, List.length_pos.mpr (by simpa using hl)⟩⟩
  rw [← hany Color.WHITE, ← hany Color.BLACK]
  unfold gameOver
  rcases pieces.any (fun pc =>
      decide (pc.color = Color.WHITE) && decide (pc.name = Name.KING) &&
        decide (pc.places.length > 0)) with _ | _ <;>
    rcases pieces.any (fun pc =>
        decide (pc.color = Color.BLACK) && decide (pc.name = Name.KING) &&
          decide (pc.places.length > 0)) with _ | _ <;>
      simp

/-- Helper: every square yielded by a ray walk passed its occupancy check
with result `UNOCCUPIED` or `REACHABLE`. -/
theorem rayWalk_mem_check (check : Color → Place → Place → Option (Color × Name × ℚ) → State)
    (color : Color) (sel : Place) (data : BoardData) (steps : List (Int × Int)) (d : Place)
    (h : d ∈ rayWalk check color sel data steps) :
    check color sel d (data d) = .UNOCCUPIED ∨ check color sel d (data d) = .REACHABLE := by
  induction steps with
  | nil => simp [rayWalk] at h
  | cons step rest ih =>
      unfold rayWalk at h
      by_cases hov : overstep (sel.1 + step.1, sel.2 + step.2)
      · simp [hov] at h
      · simp only [hov, Bool.false_eq_true, if_false] at h
        rcases hc : check color sel (sel.1 + step.1, sel.2 + step.2)
            (data (sel.1 + step.1, sel.2 + step.2)) with _ | _ | _ <;>
          rw [hc] at h
        · rcases List.mem_cons.mp h with h1 | h1
          · subst h1; exact Or.inl hc
          · exact ih h1
        · have h1 := List.mem_singleton.mp h
          subst h1; exact Or.inr hc
        · simp at h

/-- Helper: the pawn's occupancy check never answers `UNOCCUPIED`. -/
theorem pawnCheck_ne_unoccupied (color : Color) (cur nxt : Place)
    (pc? : Option (Color × Name × ℚ)) : pawnCheck color cur nxt pc? ≠ .UNOCCUPIED := by
  intro hcon
  rcases pc? with _ | ⟨c, n, p⟩ <;> simp only [pawnCheck] at hcon <;>
    split_ifs at hcon

/-- Helper: what a `REACHABLE` answer of the pawn check says about the
target square's occupant. -/
theorem pawnCheck_reachable (color : Color) (cur nxt : Place)
    (pc? : Option (Color × Name × ℚ)) (h : pawnCheck color cur nxt pc? = .REACHABLE) :
    (nxt.1 ≠ cur.1 → ∃ c n p, pc? = some (c, n, p) ∧ c ≠ color) ∧
      (nxt.1 = cur.1 → pc? = none ∨ ∃ c n p, pc? = some (c, n, p) ∧ 1 - p > eps) := by
  unfold pawnCheck at h
  rcases pc? with _ | ⟨c, n, p⟩ <;> split_ifs at h <;>
    constructor <;> intro hcol <;> simp_all
  all_goals refine ⟨c, n, p, ⟨rfl, rfl, rfl⟩, ?_⟩
  all_goals first | assumption | linarith

/-- Claim C4, amended: every pawn destination is generated through a
`REACHABLE` check, so a diagonal step (different column) is generated only
when the target holds an opposing piece — of any recorded probability, not
only probability 1 — and a forward step only when the target is empty or
holds a piece whose probability is below 1 by more than the 1e-6
tolerance. -/
theorem pawn_moves_targets (color : Color) (cur : Place) (data : BoardData) (d : Place)
    (h : d ∈ ruleNext Name.PAWN color cur data) :
    (d.1 ≠ cur.1 → ∃ c n p, data d = some (c, n, p) ∧ c ≠ color) ∧
      (d.1 = cur.1 → data d = none ∨ ∃ c n p, data d = some (c, n, p) ∧ 1 - p > eps) := by
  unfold ruleNext at h
  obtain ⟨l, _, hd⟩ := List.mem_flatMap.mp h
  have hck := rayWalk_mem_check (checkOf Name.PAWN) color cur data l d hd
  have heq : checkOf Name.PAWN = pawnCheck := rfl
  rw [heq] at hck
  rcases hck with hck | hck
  · exact absurd hck (pawnCheck_ne_unoccupied color cur d (data d))
  · exact pawnCheck_reachable color cur d (data d) hck

/-- A lone black queen superposed at (3,3) with probability 1/2. -/
def cexDiagPieces : List Piece := [⟨Color.BLACK, Name.QUEEN, [(3, 3, 1/2)]⟩]

/-- Claim C4 as stated: a pawn diagonal step would require an opposing piece
with probability exactly 1 at the target. -/
def pawnDiagonalNeedsProbOne : Prop :=
  ∀ (color : Color) (cur : Place) (data : BoardData) (d : Place),
    d ∈ ruleNext Name.PAWN color cur data → d.1 ≠ cur.1 →
      ∃ c n, data d = some (c, n, 1) ∧ c ≠ color

/-- Claim C4, counterexample: a white pawn on (2,2) is offered the diagonal
step to (3,3) although the black queen there has probability only 1/2 —
`PawnMoveRule.check` tests the defender's color but not its probability on
diagonal captures. -/
theorem pawn_diagonal_counterexample : ¬pawnDiagonalNeedsProbOne := by
  intro hclaim
  obtain ⟨c, n, hd, _⟩ :=
    hclaim Color.WHITE (2, 2) (boardData cexDiagPieces) (3, 3) (by decide) (by decide)
  have hv : boardData cexDiagPieces (3, 3) = some (Color.BLACK, Name.QUEEN, 1/2) := rfl
  rw [hv] at hd
  have : (1 : ℚ)/2 = 1 := (Prod.mk.injEq _ _ _ _ ▸ congrArg Prod.snd (Option.some.inj hd)).2
  norm_num at this

/-- Witness for the amended claim C4: on the standard board the forward
pawn step a2-a3 is generated and its target square a3 is indeed empty. -/
theorem pawn_moves_targets_witness :
    ((((1 : Int), (3 : Int)) : Place).1 ≠ (((1 : Int), (2 : Int)) : Place).1 →
        ∃ c n p, boardData standardPieces ((1 : Int), (3 : Int)) = some (c, n, p) ∧
          c ≠ Color.WHITE) ∧
      ((((1 : Int), (3 : Int)) : Place).1 = (((1 : Int), (2 : Int)) : Place).1 →
        boardData standardPieces ((1 : Int), (3 : Int)) = none ∨
          ∃ c n p, boardData standardPieces ((1 : Int), (3 : Int)) = some (c, n, p) ∧
            1 - p > eps) :=
  pawn_moves_targets Color.WHITE (1, 2) (boardData standardPieces) (1, 3) (by decide)

/-- The spec's formula for `RelativeStrength`: the sum over every placement
of every piece of signed base value times probability (stated from the
spec's words, to be compared with the evaluator embedded from the code). -/
def specPlacementSum (pieces : List Piece) : ℚ :=
  (pieces.map (fun pc =>
    (pc.places.map (fun p => pieceValue pc.color pc.name * p.2.2)).sum)).sum

/-- Two distinct pieces sharing the square (1,1), each with probability
1/2. -/
def cexSharedSquare : List Piece :=
  [⟨Color.WHITE, Name.PAWN, [(1, 1, 1/2)]⟩, ⟨Color.BLACK, Name.QUEEN, [(1, 1, 1/2)]⟩]

/-- Claim C8, counterexample: with a white pawn and a black queen sharing a
square at probability 1/2 each, the evaluator returns -45 (only the queen's
entry survives in the square map) while the per-placement sum of the claim
is -40, so the claim fails exactly in the shared-square case it singles
out. -/
theorem relativeStrength_shared_square_counterexample :
    relativeStrength (dataItems cexSharedSquare) = -45 ∧
      specPlacementSum cexSharedSquare = -40 ∧
      relativeStrength (dataItems cexSharedSquare) ≠ specPlacementSum cexSharedSquare := by
  refine ⟨by decide, by decide, by decide⟩

/-- Helper: folding `upsert` over writes whose keys are fresh and mutually
distinct just appends them. -/
theorem foldl_upsert_append :
    ∀ (ws d : List (Place × (Color × Name × ℚ))),
      (ws.map Prod.fst).Nodup → (∀ kv ∈ ws, kv.1 ∉ d.map Prod.fst) →
      ws.foldl (fun d kv => upsert d kv.1 kv.2) d = d ++ ws := by
  intro ws
  induction ws with
  | nil => intro d _ _; simp
  | cons kv ws' ih =>
      intro d hnd hdis
      have hkd : kv.1 ∉ d.map Prod.fst := hdis kv (List.mem_cons_self kv ws')
      have hany : d.any (fun x => x.1 = kv.1) = false := by
        rw [List.any_eq_false]
        intro x hx
        simp only [decide_eq_true_eq]
        intro hcon
        exact hkd (hcon ▸ List.mem_map_of_mem Prod.fst hx)
      have hup : upsert d kv.1 kv.2 = d ++ [(kv.1, kv.2)] := by
        unfold upsert
        rw [hany]
        simp
      rw [List.foldl_cons, hup, ih (d ++ [(kv.1, kv.2)])
        (by simpa using (List.nodup_cons.mp hnd).2) ?_]
      · simp
      · intro x hx
        simp only [List.map_append, List.mem_append, List.map_cons]
        rintro (hin | hin)
        · exact hdis x (List.mem_cons_of_mem _ hx) hin
        · simp only [List.map_nil, List.mem_cons, List.not_mem_nil] at hin
          rcases hin with hin | hin
          · exact (List.nodup_cons.mp hnd).1 (hin ▸ List.mem_map_of_mem Prod.fst hx)
          · exact hin

/-- Helper: the evaluator's fold is the sum of the mapped values. -/
theorem relativeStrength_foldl (l : List (Place × (Color × Name × ℚ))) :
    ∀ acc : ℚ, l.foldl (fun a kv => a + pieceValue kv.2.1 kv.2.2.1 * kv.2.2.2) acc =
      acc + (l.map (fun kv => pieceValue kv.2.1 kv.2.2.1 * kv.2.2.2)).sum := by
  induction l with
  | nil => intro acc; simp
  | cons kv l' ih => intro acc; simp [ih, add_assoc]

/-- Helper: the spec's nested per-piece per-placement sum equals the flat
sum over all square-map writes. -/
theorem specPlacementSum_eq_writes (pieces : List Piece) :
    specPlacementSum pieces =
      ((boardWrites pieces).map (fun kv => pieceValue kv.2.1 kv.2.2.1 * kv.2.2.2)).sum := by
  unfold specPlacementSum boardWrites
  induction pieces with
  | nil => simp
  | cons pc rest ih =>
      simp only [List.map_cons, List.sum_cons, List.flatMap_cons, List.map_append,
        List.sum_append, ih, List.map_map]
      rfl

/-- Claim C8, amended: `RelativeStrength.evaluate` sums signed base value
times probability over the entries of the derived square map, in which a
later-placed piece overwrites an earlier one on the same square; the
claimed per-placement sum is obtained exactly when no two placements share
a square. -/
theorem relativeStrength_distinct_squares (pieces : List Piece)
    (hnd : ((boardWrites pieces).map Prod.fst).Nodup) :
    relativeStrength (dataItems pieces) = specPlacementSum pieces := by
  unfold dataItems relativeStrength
  rw [foldl_upsert_append (boardWrites pieces) [] hnd (by simp)]
  rw [List.nil_append, relativeStrength_foldl, zero_add, specPlacementSum_eq_writes]

/-- Witness for the amended claim C8: the standard starting position has
pairwise-distinct placement squares and its evaluation equals the
per-placement sum. -/
theorem relativeStrength_distinct_squares_witness :
    relativeStrength (dataItems standardPieces) = specPlacementSum standardPieces :=
  relativeStrength_distinct_squares standardPieces (by decide)

/-- Claim C9: after a step performed through the controller's `run` (which
snapshots the live board before letting the selected agent mutate it), an
immediate `undo` restores the controller's chessboard — pieces, placements,
probabilities and side to move — to the exact pre-move board, for every
agent behaviour and hence for every kind of applied move. -/
theorem run_undo_restores_board (c : Chess)
    (agent1 agent2 : ChessBoard → ChessBoard × String) :
    ((c.run agent1 agent2).undo).map (fun d => d.chessboard) = some c.chessboard := by
  unfold Chess.run Chess.undo
  simp


/-- Helper: what remains after a `remove` is a subset of the original placements. -/
theorem removeFirst_subset {ps : List Placement} {sq : Place} {v : Placement}
    {rest : List Placement} (h : removeFirst ps sq = some (v, rest)) :
    ∀ p ∈ rest, p ∈ ps := by
  induction ps generalizing v rest with
  | nil => simp [removeFirst] at h
  | cons q qs ih =>
      unfold removeFirst at h
      by_cases hq : placeOf q = sq
      · rw [if_pos hq] at h
        injection h with h
        injection h with h1 h2
        subst h2
        intro p hp
        exact List.mem_cons_of_mem q hp
      · rw [if_neg hq] at h
        rcases hrec : removeFirst qs sq with _ | ⟨v', rest'⟩ <;> rw [hrec] at h
        · cases h
        · injection h with h
          injection h with h1 h2
          subst h2
          intro p hp
          rcases List.mem_cons.mp hp with h1 | h1
          · exact h1 ▸ List.mem_cons_self q qs
          · exact List.mem_cons_of_mem q (ih hrec p h1)

/-- Helper: `Piece.find` is false exactly when no placement sits on the square. -/
theorem find_eq_false_iff (pc : Piece) (sq : Place) :
    pc.find sq = false ↔ ∀ p ∈ pc.places, placeOf p ≠ sq := by
  unfold Piece.find
  rw [List.any_eq_false]
  simp

/-- Helper: `Rule.find` returns an in-range index whose piece holds the square. -/
theorem findPieceIdx_spec {sq : Place} {pieces : List Piece} {i : Nat} {pc : Piece}
    (h : findPieceIdx sq pieces = some (i, pc)) :
    pieces[i]? = some pc ∧ pc.find sq = true ∧ i < pieces.length := by
  induction pieces generalizing i with
  | nil => simp [findPieceIdx] at h
  | cons q qs ih =>
      unfold findPieceIdx at h
      by_cases hq : q.find sq
      · rw [if_pos hq] at h
        injection h with h
        injection h with h1 h2
        subst h1
        subst h2
        exact ⟨by simp, hq, Nat.succ_pos _⟩
      · rw [if_neg hq] at h
        rcases hrec : findPieceIdx sq qs with _ | ⟨i', pc'⟩ <;> rw [hrec] at h
        · cases h
        · first
          | simp only [Option.map_some] at h
          | simp only [Option.map_some'] at h
          injection h with h
          injection h with h1 h2
          subst h1
          subst h2
          obtain ⟨h1, h2, h3⟩ := ih hrec
          exact ⟨by simpa using h1, h2, Nat.succ_lt_succ h3⟩

/-- Helper: replacing a piece that does not hold the square (before or after) leaves the `Rule.find` result unchanged. -/
theorem findPieceIdx_set_of_find_false {sq : Place} {pieces : List Piece} {i : Nat}
    (x : Piece) (hold : ∀ pc, pieces[i]? = some pc → pc.find sq = false)
    (hnew : x.find sq = false) :
    findPieceIdx sq (pieces.set i x) = findPieceIdx sq pieces := by
  induction pieces generalizing i with
  | nil => simp
  | cons q qs ih =>
      rcases i with _ | i'
      · have hq : q.find sq = false := hold q (by simp)
        simp only [List.set_cons_zero]
        unfold findPieceIdx
        rw [hq, hnew]
        simp
      · simp only [List.set_cons_succ]
        unfold findPieceIdx
        by_cases hq : q.find sq
        · simp [hq]
        · simp only [hq, Bool.false_eq_true, if_false]
          rw [ih (fun pc hpc => hold pc (by simpa using hpc))]

/-- Helper: the full effect of `CastlingActionRule.action` on a board where the rook and king pieces are found at distinct indices and the relocated rook does not land on the king square: both pieces keep their probabilities, the columns are chosen by the rook source column alone, and every other piece is untouched. -/
theorem castlingAction_spec (pieces : List Piece) (color : Color) (name : Name)
    (s t : Place) (i j : Nat) (rk kg : Piece) (v w : Placement)
    (restR restK : List Placement)
    (hi : findPieceIdx s pieces = some (i, rk))
    (hj : findPieceIdx t pieces = some (j, kg))
    (hij : i ≠ j)
    (hrem : removeFirst rk.places s = some (v, restR))
    (hremK : removeFirst kg.places t = some (w, restK))
    (hRnoT : rk.find t = false)
    (hnewT : (((if s.1 = 1 then (4 : Int) else 6), s.2) : Place) ≠ t) :
    ∃ ps', castlingAction color name [s] [t] pieces =
        some (ps', if s.1 = 1 then "0-0-0" else "0-0") ∧
      ps'[i]? = some { rk with places :=
        restR ++ [((if s.1 = 1 then 4 else 6), s.2, v.2.2)] } ∧
      ps'[j]? = some { kg with places :=
        restK ++ [((if s.1 = 1 then 3 else 7), t.2, w.2.2)] } ∧
      ∀ k, k ≠ i → k ≠ j → ps'[k]? = pieces[k]? := by
  obtain ⟨hgi, hfindi, hilen⟩ := findPieceIdx_spec hi
  obtain ⟨hgj, hfindj, hjlen⟩ := findPieceIdx_spec hj
  have hremEq : rk.remove s = some (v, { rk with places := restR }) := by
    unfold Piece.remove
    rw [hrem]
  have hremKEq : kg.remove t = some (w, { kg with places := restK }) := by
    unfold Piece.remove
    rw [hremK]
  set rk' : Piece := { rk with places :=
    restR ++ [((if s.1 = 1 then 4 else 6), s.2, v.2.2)] } with hrk'
  have hrk'find : rk'.find t = false := by
    rw [find_eq_false_iff]
    intro p hp
    rcases List.mem_append.mp hp with h1 | h1
    · exact (find_eq_false_iff rk t).mp hRnoT p (removeFirst_subset hrem p h1)
    · have h2 := List.mem_singleton.mp h1
      subst h2
      simpa [placeOf] using hnewT
  have hfind1 : findPieceIdx t (pieces.set i rk') = some (j, kg) := by
    rw [findPieceIdx_set_of_find_false rk'
      (fun pc hpc => by rw [hgi] at hpc; cases hpc; exact hRnoT) hrk'find]
    exact hj
  refine ⟨(pieces.set i rk').set j
    { kg with places := restK ++ [((if s.1 = 1 then 3 else 7), t.2, w.2.2)] },
    ?_, ?_, ?_, ?_⟩
  · simp only [castlingAction, hi, hremEq, Piece.add]
    simp only [← hrk']
    simp only [hfind1, hremKEq, Piece.add]
  · rw [List.getElem?_set_ne (fun hcon => hij hcon.symm)]
    exact List.getElem?_set_eq_of_lt _ hilen
  · rw [List.getElem?_set_eq_of_lt]
    rwa [List.length_set]
  · intro k hki hkj
    rw [List.getElem?_set_ne (fun hcon => hkj hcon.symm),
      List.getElem?_set_ne (fun hcon => hki hcon.symm)]

/-- Claim C7: a castling action moves the rook placement to column 4 and the king placement to column 3 (record "0-0-0") when the rook source is on column 1, and to columns 6 and 7 (record "0-0") when it is on column 8; each moved placement keeps its prior probability, each piece keeps its rank, and no other placement changes. -/
theorem castling_action_castles (pieces : List Piece) (color : Color) (name : Name)
    (s t : Place) (i j : Nat) (rk kg : Piece) (v w : Placement)
    (restR restK : List Placement)
    (hi : findPieceIdx s pieces = some (i, rk))
    (hj : findPieceIdx t pieces = some (j, kg))
    (hij : i ≠ j)
    (hrem : removeFirst rk.places s = some (v, restR))
    (hremK : removeFirst kg.places t = some (w, restK))
    (hRnoT : rk.find t = false)
    (hnewT : (((if s.1 = 1 then (4 : Int) else 6), s.2) : Place) ≠ t) :
    ∃ ps', castlingAction color name [s] [t] pieces =
        some (ps', if s.1 = 1 then "0-0-0" else "0-0") ∧
      (s.1 = 1 →
        ps'[i]? = some { rk with places := restR ++ [(4, s.2, v.2.2)] } ∧
        ps'[j]? = some { kg with places := restK ++ [(3, t.2, w.2.2)] }) ∧
      (s.1 = 8 →
        ps'[i]? = some { rk with places := restR ++ [(6, s.2, v.2.2)] } ∧
        ps'[j]? = some { kg with places := restK ++ [(7, t.2, w.2.2)] }) ∧
      ∀ k, k ≠ i → k ≠ j → ps'[k]? = pieces[k]? := by
  obtain ⟨ps', heq, hri, hkj, hframe⟩ :=
    castlingAction_spec pieces color name s t i j rk kg v w restR restK
      hi hj hij hrem hremK hRnoT hnewT
  refine ⟨ps', heq, ?_, ?_, hframe⟩
  · intro h1
    rw [if_pos h1] at hri
    rw [if_pos h1] at hkj
    exact ⟨hri, hkj⟩
  · intro h8
    have h1 : ¬(s.1 = 1) := by omega
    rw [if_neg h1] at hri
    rw [if_neg h1] at hkj
    exact ⟨hri, hkj⟩

/-- A white rook on a1 and a white king on e1, both with probability 1. -/
def castlePieces : List Piece :=
  [⟨Color.WHITE, Name.ROOK, [(1, 1, 1)]⟩, ⟨Color.WHITE, Name.KING, [(5, 1, 1)]⟩]

/-- Witness for claim C7: white queen-side castling from the a1 rook onto the e1 king. -/
theorem castling_action_castles_witness :
    ∃ ps', castlingAction Color.WHITE Name.ROOK [((1 : Int), (1 : Int))]
        [((5 : Int), (1 : Int))] castlePieces =
        some (ps', if ((1 : Int), (1 : Int)).1 = 1 then "0-0-0" else "0-0") ∧
      (((1 : Int), (1 : Int)).1 = 1 →
        ps'[0]? = some { (⟨Color.WHITE, Name.ROOK, [(1, 1, 1)]⟩ : Piece) with
          places := [] ++ [(4, 1, 1)] } ∧
        ps'[1]? = some { (⟨Color.WHITE, Name.KING, [(5, 1, 1)]⟩ : Piece) with
          places := [] ++ [(3, 1, 1)] }) ∧
      (((1 : Int), (1 : Int)).1 = 8 →
        ps'[0]? = some { (⟨Color.WHITE, Name.ROOK, [(1, 1, 1)]⟩ : Piece) with
          places := [] ++ [(6, 1, 1)] } ∧
        ps'[1]? = some { (⟨Color.WHITE, Name.KING, [(5, 1, 1)]⟩ : Piece) with
          places := [] ++ [(7, 1, 1)] }) ∧
      ∀ k, k ≠ 0 → k ≠ 1 → ps'[k]? = castlePieces[k]? :=
  castling_action_castles castlePieces Color.WHITE Name.ROOK (1, 1) (5, 1) 0 1
    ⟨Color.WHITE, Name.ROOK, [(1, 1, 1)]⟩ ⟨Color.WHITE, Name.KING, [(5, 1, 1)]⟩
    (1, 1, 1) (5, 1, 1) [] []
    (by decide) (by decide) (by decide) (by decide) (by decide) (by decide) (by decide)

/-- Claim C10 (implicit): whenever the square map records a same-color king of probability 1 at the single target and the moving piece is a rook, the castling rule is the first to match in the dispatch order (Move and Attack both fail), and the relocation columns are chosen only by the rook source column — no corner-square or home-rank condition appears among the hypotheses. -/
theorem rook_beside_king_triggers_castling (pieces : List Piece) (color : Color)
    (s t : Place) (i j : Nat) (rk kg : Piece) (v w : Placement)
    (restR restK : List Placement)
    (hdata : boardData pieces t = some (color, Name.KING, 1))
    (hi : findPieceIdx s pieces = some (i, rk))
    (hj : findPieceIdx t pieces = some (j, kg))
    (hij : i ≠ j)
    (hrem : removeFirst rk.places s = some (v, restR))
    (hremK : removeFirst kg.places t = some (w, restK))
    (hRnoT : rk.find t = false)
    (hnewT : (((if s.1 = 1 then (4 : Int) else 6), s.2) : Place) ≠ t) :
    selectRule color Name.ROOK [s] [t] (boardData pieces) = some RuleTag.castling ∧
      ∃ ps', castlingAction color Name.ROOK [s] [t] pieces =
          some (ps', if s.1 = 1 then "0-0-0" else "0-0") ∧
        ps'[i]? = some { rk with places :=
          restR ++ [((if s.1 = 1 then 4 else 6), s.2, v.2.2)] } ∧
        ps'[j]? = some { kg with places :=
          restK ++ [((if s.1 = 1 then 3 else 7), t.2, w.2.2)] } ∧
        ∀ k, k ≠ i → k ≠ j → ps'[k]? = pieces[k]? := by
  constructor
  · simp only [selectRule, moveCond, attackCond, castlingCond, hdata]
    simp
  · exact castlingAction_spec pieces color Name.ROOK s t i j rk kg v w restR restK
      hi hj hij hrem hremK hRnoT hnewT

/-- A white rook on d4 directly beside the white king on e4 — nowhere near a corner or the home rank. -/
def midBoardPieces : List Piece :=
  [⟨Color.WHITE, Name.ROOK, [(4, 4, 1)]⟩, ⟨Color.WHITE, Name.KING, [(5, 4, 1)]⟩,
   ⟨Color.BLACK, Name.KING, [(5, 8, 1)]⟩]

/-- Witness for claim C10: the d4 rook next to the e4 king fires the castling relocation (king-side columns, since the source column is not 1). -/
theorem rook_beside_king_triggers_castling_witness :
    selectRule Color.WHITE Name.ROOK [((4 : Int), (4 : Int))] [((5 : Int), (4 : Int))]
        (boardData midBoardPieces) = some RuleTag.castling ∧
      ∃ ps', castlingAction Color.WHITE Name.ROOK [((4 : Int), (4 : Int))]
          [((5 : Int), (4 : Int))] midBoardPieces =
          some (ps', if ((4 : Int), (4 : Int)).1 = 1 then "0-0-0" else "0-0") ∧
        ps'[0]? = some { (⟨Color.WHITE, Name.ROOK, [(4, 4, 1)]⟩ : Piece) with
          places := [] ++ [((if ((4 : Int), (4 : Int)).1 = 1 then 4 else 6), 4, 1)] } ∧
        ps'[1]? = some { (⟨Color.WHITE, Name.KING, [(5, 4, 1)]⟩ : Piece) with
          places := [] ++ [((if ((4 : Int), (4 : Int)).1 = 1 then 3 else 7), 4, 1)] } ∧
        ∀ k, k ≠ 0 → k ≠ 1 → ps'[k]? = midBoardPieces[k]? :=
  rook_beside_king_triggers_castling midBoardPieces Color.WHITE (4, 4) (5, 4) 0 1
    ⟨Color.WHITE, Name.ROOK, [(4, 4, 1)]⟩ ⟨Color.WHITE, Name.KING, [(5, 4, 1)]⟩
    (4, 4, 1) (5, 4, 1) [] []
    (by decide) (by decide) (by decide) (by decide) (by decide) (by decide)
    (by decide) (by decide)


/-- Claim C3 as stated, in the part every split action must satisfy: after any applied split action the moving piece would hold a placement of half its removed source probability at each of the two targets. -/
def splitHalvesClaim : Prop :=
  ∀ (color : Color) (name : Name) (s t0 t1 : Place) (pieces ps' : List Piece)
    (rec : String) (is : Nat) (spc : Piece) (v : Placement) (restS : List Placement),
    findPieceIdx s pieces = some (is, spc) →
    removeFirst spc.places s = some (v, restS) →
    splitMoveAction color name [s] [t0, t1] pieces = some (ps', rec) →
    ∃ q, ps'[is]? = some q ∧ q.get t0 = v.2.2 / 2 ∧ q.get t1 = v.2.2 / 2

/-- A superposed white knight at d4/a1 with both split targets e6 and c6 occupied by other knights of probability 1/2. -/
def cexSplitPieces : List Piece :=
  [⟨Color.WHITE, Name.KNIGHT, [(4, 4, 1/2), (1, 1, 1/2)]⟩,
   ⟨Color.WHITE, Name.KNIGHT, [(5, 6, 1/2)]⟩,
   ⟨Color.WHITE, Name.KNIGHT, [(3, 6, 1/2)]⟩]

/-- The board produced by splitting the d4 knight onto the two occupied targets. -/
def cexSplitResult : List Piece × String :=
  (splitMoveAction Color.WHITE Name.KNIGHT [(4, 4)] [(5, 6), (3, 6)]
    cexSplitPieces).getD ([], "")

/-- Claim C3, counterexample: when both targets are occupied, `SplitMoveActionRule.action` takes its exchange branch instead — the mover keeps its full probability 1/2 at the first target (no halving to 1/4) and gains nothing at the second target, so the claim fails in the two-occupied case it includes. -/
theorem split_both_occupied_counterexample : ¬splitHalvesClaim := by
  intro h
  obtain ⟨q, hq, h0, h1⟩ := h Color.WHITE Name.KNIGHT (4, 4) (5, 6) (3, 6)
    cexSplitPieces cexSplitResult.1 cexSplitResult.2 0
    ⟨Color.WHITE, Name.KNIGHT, [(4, 4, 1/2), (1, 1, 1/2)]⟩ (4, 4, 1/2) [(1, 1, 1/2)]
    (by decide) (by decide) rfl
  have hqv : q = ⟨Color.WHITE, Name.KNIGHT, [(1, 1, 1/2), (5, 6, 1/2)]⟩ := by
    have hr : cexSplitResult.1[0]? =
        some ⟨Color.WHITE, Name.KNIGHT, [(1, 1, 1/2), (5, 6, 1/2)]⟩ := by decide
    rw [hr] at hq
    exact (Option.some.inj hq).symm
  subst hqv
  revert h0
  decide

/-- Claim C3, amended: for every split action with at most one occupied target, the moving piece loses its source placement of probability p and gains a placement of p/2 at each of the two targets, any occupied target piece has its placement at the target removed and re-added at the source square with its original probability, and every other piece is unchanged.  (When both targets are occupied the code instead rotates the three probabilities: mover fully to the first target, first target piece to the second target, second target piece to the source.) -/
theorem split_at_most_one_occupied (pieces : List Piece) (color : Color) (name : Name)
    (s t0 t1 : Place) (is : Nat) (spc : Piece) (v : Placement)
    (restS : List Placement) (o0 o1 : Option (Nat × Piece))
    (h0 : findPieceIdx t0 pieces = o0)
    (h1 : findPieceIdx t1 pieces = o1)
    (hnb : o0 = none ∨ o1 = none)
    (hs : findPieceIdx s pieces = some (is, spc))
    (hrem : removeFirst spc.places s = some (v, restS))
    (hd0 : ∀ i0 d0, o0 = some (i0, d0) → i0 ≠ is ∧
      ∃ w rest0, removeFirst d0.places t0 = some (w, rest0))
    (hd1 : ∀ i1 d1, o1 = some (i1, d1) → i1 ≠ is ∧
      ∃ w rest1, removeFirst d1.places t1 = some (w, rest1)) :
    ∃ ps' rec, splitMoveAction color name [s] [t0, t1] pieces = some (ps', rec) ∧
      ps'[is]? = some { spc with places :=
        restS ++ [(t0.1, t0.2, v.2.2 / 2), (t1.1, t1.2, v.2.2 / 2)] } ∧
      (∀ i0 d0, o0 = some (i0, d0) →
        ∃ w rest0, removeFirst d0.places t0 = some (w, rest0) ∧
          ps'[i0]? = some { d0 with places := rest0 ++ [(s.1, s.2, w.2.2)] }) ∧
      (∀ i1 d1, o1 = some (i1, d1) →
        ∃ w rest1, removeFirst d1.places t1 = some (w, rest1) ∧
          ps'[i1]? = some { d1 with places := rest1 ++ [(s.1, s.2, w.2.2)] }) ∧
      (∀ k, k ≠ is → (∀ i0 d0, o0 = some (i0, d0) → k ≠ i0) →
        (∀ i1 d1, o1 = some (i1, d1) → k ≠ i1) → ps'[k]? = pieces[k]?) := by
  obtain ⟨hgs, _, hslen⟩ := findPieceIdx_spec hs
  have hremEq : spc.remove s = some (v, { spc with places := restS }) := by
    unfold Piece.remove
    rw [hrem]
  rcases ho0 : o0 with _ | ⟨i0, d0⟩ <;> rcases ho1 : o1 with _ | ⟨i1, d1⟩
  · -- both targets empty
    refine ⟨pieces.set is ({ spc with places :=
        restS ++ [(t0.1, t0.2, v.2.2 / 2), (t1.1, t1.2, v.2.2 / 2)] }),
      piece2str spc ++ place2str s ++ "-" ++ place2str t0 ++ "^" ++ place2str t1,
      ?_, ?_, by simp, by simp, ?_⟩
    · subst ho0 ho1
      simp only [splitMoveAction, h0, h1, hs, hgs, hremEq, Piece.add,
        List.append_assoc, List.cons_append, List.nil_append]
    · exact List.getElem?_set_eq_of_lt _ hslen
    · intro k hki _ _
      exact List.getElem?_set_ne (fun hcon => hki hcon.symm)
  · -- second target occupied
    subst ho0
    obtain ⟨hne1, w1, rest1, hrem1⟩ := hd1 i1 d1 ho1
    obtain ⟨hg1, _, h1len⟩ := findPieceIdx_spec (ho1 ▸ h1)
    have hrem1Eq : d1.remove t1 = some (w1, { d1 with places := rest1 }) := by
      unfold Piece.remove
      rw [hrem1]
    have hg1s : (pieces.set i1 ({ d1 with places := rest1 ++ [(s.1, s.2, w1.2.2)] }))[is]? =
        some spc := by
      rw [List.getElem?_set_ne hne1]
      exact hgs
    refine ⟨(pieces.set i1 ({ d1 with places := rest1 ++ [(s.1, s.2, w1.2.2)] })).set is
        ({ spc with places :=
          restS ++ [(t0.1, t0.2, v.2.2 / 2), (t1.1, t1.2, v.2.2 / 2)] }),
      piece2str spc ++ place2str s ++ "-" ++ place2str t0 ++ "^" ++ place2str t1,
      ?_, ?_, by simp, ?_, ?_⟩
    · subst ho1
      simp only [splitMoveAction, h0, h1, hs, hg1, hrem1Eq, Piece.add, hg1s, hremEq,
        List.append_assoc, List.cons_append, List.nil_append]
    · rw [List.getElem?_set_eq_of_lt]
      rwa [List.length_set]
    · intro i1' d1' hh
      cases hh
      refine ⟨w1, rest1, hrem1, ?_⟩
      rw [List.getElem?_set_ne (fun hcon => hne1 hcon.symm)]
      exact List.getElem?_set_eq_of_lt _ h1len
    · intro k hki _ hk1
      rw [List.getElem?_set_ne (fun hcon => hki hcon.symm),
        List.getElem?_set_ne (fun hcon => (hk1 i1 d1 rfl) hcon.symm)]
  · -- first target occupied
    subst ho1
    obtain ⟨hne0, w0, rest0, hrem0⟩ := hd0 i0 d0 ho0
    obtain ⟨hg0, _, h0len⟩ := findPieceIdx_spec (ho0 ▸ h0)
    have hrem0Eq : d0.remove t0 = some (w0, { d0 with places := rest0 }) := by
      unfold Piece.remove
      rw [hrem0]
    have hg0s : (pieces.set i0 ({ d0 with places := rest0 ++ [(s.1, s.2, w0.2.2)] }))[is]? =
        some spc := by
      rw [List.getElem?_set_ne hne0]
      exact hgs
    refine ⟨(pieces.set i0 ({ d0 with places := rest0 ++ [(s.1, s.2, w0.2.2)] })).set is
        ({ spc with places :=
          restS ++ [(t0.1, t0.2, v.2.2 / 2), (t1.1, t1.2, v.2.2 / 2)] }),
      piece2str spc ++ place2str s ++ "-" ++ place2str t0 ++ "^" ++ place2str t1,
      ?_, ?_, ?_, by simp, ?_⟩
    · subst ho0
      simp only [splitMoveAction, h0, h1, hs, hg0, hrem0Eq, Piece.add, hg0s, hremEq,
        List.append_assoc, List.cons_append, List.nil_append]
    · rw [List.getElem?_set_eq_of_lt]
      rwa [List.length_set]
    · intro i0' d0' hh
      cases hh
      refine ⟨w0, rest0, hrem0, ?_⟩
      rw [List.getElem?_set_ne (fun hcon => hne0 hcon.symm)]
      exact List.getElem?_set_eq_of_lt _ h0len
    · intro k hki hk0 _
      rw [List.getElem?_set_ne (fun hcon => hki hcon.symm),
        List.getElem?_set_ne (fun hcon => (hk0 i0 d0 rfl) hcon.symm)]
  · -- both occupied: excluded
    rcases hnb with hcon | hcon <;> simp [ho0, ho1] at hcon

/-- A superposed white knight at d4/a1; split target e6 empty, split target c6 occupied by another knight. -/
def oneOccupiedPieces : List Piece :=
  [⟨Color.WHITE, Name.KNIGHT, [(4, 4, 1/2), (1, 1, 1/2)]⟩,
   ⟨Color.WHITE, Name.KNIGHT, [(3, 6, 1/2)]⟩]

/-- Witness for the amended claim C3: the d4 knight splits to e6 (empty) and c6 (occupied); it ends with probability 1/4 at each and the c6 knight swaps to d4 with probability 1/2. -/
theorem split_at_most_one_occupied_witness :
    ∃ ps' rec, splitMoveAction Color.WHITE Name.KNIGHT [((4 : Int), (4 : Int))]
        [((5 : Int), (6 : Int)), ((3 : Int), (6 : Int))] oneOccupiedPieces =
        some (ps', rec) ∧
      ps'[0]? = some { (⟨Color.WHITE, Name.KNIGHT, [(4, 4, 1/2), (1, 1, 1/2)]⟩ : Piece) with
        places := [(1, 1, 1/2)] ++
          [(5, 6, (1 : ℚ)/2 / 2), (3, 6, (1 : ℚ)/2 / 2)] } ∧
      (∀ i0 d0, (none : Option (Nat × Piece)) = some (i0, d0) →
        ∃ w rest0, removeFirst d0.places ((5 : Int), (6 : Int)) = some (w, rest0) ∧
          ps'[i0]? = some { d0 with places := rest0 ++ [(4, 4, w.2.2)] }) ∧
      (∀ i1 d1,
        (some (1, (⟨Color.WHITE, Name.KNIGHT, [(3, 6, 1/2)]⟩ : Piece)) :
            Option (Nat × Piece)) = some (i1, d1) →
        ∃ w rest1, removeFirst d1.places ((3 : Int), (6 : Int)) = some (w, rest1) ∧
          ps'[i1]? = some { d1 with places := rest1 ++ [(4, 4, w.2.2)] }) ∧
      (∀ k, k ≠ 0 →
        (∀ i0 d0, (none : Option (Nat × Piece)) = some (i0, d0) → k ≠ i0) →
        (∀ i1 d1,
          (some (1, (⟨Color.WHITE, Name.KNIGHT, [(3, 6, 1/2)]⟩ : Piece)) :
              Option (Nat × Piece)) = some (i1, d1) → k ≠ i1) →
        ps'[k]? = oneOccupiedPieces[k]?) :=
  split_at_most_one_occupied oneOccupiedPieces Color.WHITE Name.KNIGHT
    (4, 4) (5, 6) (3, 6) 0
    ⟨Color.WHITE, Name.KNIGHT, [(4, 4, 1/2), (1, 1, 1/2)]⟩ (4, 4, 1/2) [(1, 1, 1/2)]
    none (some (1, ⟨Color.WHITE, Name.KNIGHT, [(3, 6, 1/2)]⟩))
    (by decide) (by decide) (Or.inl rfl) (by decide) (by decide)
    (fun _ _ h => nomatch h)
    (by
      intro i1 d1 h
      cases h
      exact ⟨by decide, (3, 6, 1/2), [], by decide⟩)

end QChess
